import Mathlib

/-!
Verification of the `smtp_echo` reply-synthesis and direct-delivery engine
(`internal/echo`): a shallow embedding of its pure decision logic, with the
surrounding Go standard-library string operations modelled on `List Char`.
Library calls (the `go-message` address/header parser, the DNS resolver and
the SMTP client) are abstracted as explicit inputs, so every embedded function
below mirrors one function of `replier.go` / `server.go`.
-/

namespace SmtpEcho

/-! ## Go string primitives (ASCII model)

These model the `strings` / `html` standard-library calls used by the source.
Whitespace is the set recognised by Go's `unicode.IsSpace` restricted to the
code points that can appear here: ASCII whitespace plus U+0085 and U+00A0. -/

/-- Character class used by `strings.TrimSpace` and `strings.Fields`. -/
def goSpace (c : Char) : Bool :=
  c == ' ' || c == '\t' || c == '\n' || c == '\r' || c == '\x0b' || c == '\x0c' ||
  c == '\x85' || c == '\xa0'

/-- Model of `strings.TrimSpace` on the underlying character list. -/
def trimSpaceL (l : List Char) : List Char :=
  ((l.dropWhile goSpace).reverse.dropWhile goSpace).reverse

/-- Model of `strings.TrimSpace`. -/
def trimSpace (s : String) : String :=
  ⟨trimSpaceL s.data⟩

/-- Boolean test that one character list starts with another
(model of `strings.HasPrefix` via `.data`). -/
def hasPfx : List Char → List Char → Bool
  | _, [] => true
  | [], _ :: _ => false
  | c :: s, d :: p => c == d && hasPfx s p

/-- Model of `strings.ToLower`; Go lowercases full Unicode, but only the ASCII
range matters for the `"re:"` test performed by the source. -/
def toLowerS (s : String) : String :=
  ⟨s.data.map Char.toLower⟩

/-- Model of `strings.Count s "@"`: the argument in the source is the
single-character pattern `"@"`, so this counts occurrences of one character. -/
def countChar (s : String) (c : Char) : Nat :=
  s.data.count c

/-- Model of `strings.ContainsAny s " \t"`. -/
def containsSpaceOrTab (s : String) : Bool :=
  s.data.any (fun c => c == ' ' || c == '\t')

/-- Model of `strings.TrimPrefix v "<"` followed by `strings.TrimSuffix v ">"`:
strips at most one leading `<` and at most one trailing `>`. -/
def trimAngles (s : String) : String :=
  let l := match s.data with
    | '<' :: rest => rest
    | l => l
  if l.getLast? = some '>' then ⟨l.dropLast⟩ else ⟨l⟩

/-- Model of `strings.TrimSuffix host "."` (`normalizeMXHost` in the source). -/
def normalizeMXHost (host : String) : String :=
  if host.data.getLast? = some '.' then ⟨host.data.dropLast⟩ else host

/-- Accumulator splitter behind `fieldsL` (model of `strings.Fields`):
`acc` holds the current word reversed. -/
def fieldsAux : List Char → List Char → List (List Char)
  | [], acc => if acc.isEmpty then [] else [acc.reverse]
  | c :: rest, acc =>
    if goSpace c then
      if acc.isEmpty then fieldsAux rest [] else acc.reverse :: fieldsAux rest []
    else
      fieldsAux rest (c :: acc)

/-- Model of `strings.Fields`: split around runs of whitespace. -/
def fieldsL (l : List Char) : List (List Char) :=
  fieldsAux l []

/-- Model of `strings.Join ws " "` on character lists. -/
def joinSpaceL : List (List Char) → List Char
  | [] => []
  | [w] => w
  | w :: ws => w ++ ' ' :: joinSpaceL ws

/-- Scanner for the regular expression `(?s)<[^>]*>`: given the characters
after a `<`, return the remainder after the first `>`, or `none` when the
tag is never closed (in which case the regexp does not match). -/
def splitAtGt : List Char → Option (List Char)
  | [] => none
  | '>' :: rest => some rest
  | _ :: rest => splitAtGt rest

/-- Fuel-indexed model of `htmlTagPattern.ReplaceAllString input " "`:
each match of `(?s)<[^>]*>` is replaced by a single space; an unclosed `<`
is kept verbatim because the pattern cannot match it. -/
def stripTagsAux : Nat → List Char → List Char
  | 0, l => l
  | _ + 1, [] => []
  | n + 1, '<' :: rest =>
    match splitAtGt rest with
    | some rest' => ' ' :: stripTagsAux n rest'
    | none => '<' :: rest
  | n + 1, c :: rest => c :: stripTagsAux n rest

/-- Model of `htmlTagPattern.ReplaceAllString input " "`. -/
def stripTagsL (l : List Char) : List Char :=
  stripTagsAux l.length l

/-- Entity table behind `unescapeL`. Go's `html.UnescapeString` knows the whole
HTML5 entity list; this models the named entities that can be relevant here
(the source's own tests only exercise `amp`). Unknown sequences are kept
verbatim, exactly as `UnescapeString` keeps unknown entities. -/
def matchEntity (l : List Char) : Option (Char × List Char) :=
  if hasPfx l "amp;".data then some ('&', l.drop 4)
  else if hasPfx l "lt;".data then some ('<', l.drop 3)
  else if hasPfx l "gt;".data then some ('>', l.drop 3)
  else if hasPfx l "quot;".data then some ('"', l.drop 5)
  else if hasPfx l "apos;".data then some ('\'', l.drop 5)
  else if hasPfx l "nbsp;".data then some ('\xa0', l.drop 5)
  else none

/-- Fuel-indexed model of `html.UnescapeString` over the modelled entity set. -/
def unescapeAux : Nat → List Char → List Char
  | 0, l => l
  | _ + 1, [] => []
  | n + 1, '&' :: rest =>
    match matchEntity rest with
    | some (c, rest') => c :: unescapeAux n rest'
    | none => '&' :: unescapeAux n rest
  | n + 1, c :: rest => c :: unescapeAux n rest

/-- Model of `html.UnescapeString` (modelled entity subset). -/
def unescapeL (l : List Char) : List Char :=
  unescapeAux l.length l

/-! ## htmlToText (replier.go lines 224-230) -/

/-- Embedding of `htmlToText`: strip tags (each replaced by a space), decode
entity references, then `strings.TrimSpace(strings.Join(strings.Fields(...), " "))`. -/
def htmlToText (input : String) : String :=
  ⟨trimSpaceL (joinSpaceL (fieldsL (unescapeL (stripTagsL input.data))))⟩

/-! ## Thread metadata extraction (replier.go lines 90-113)

The `go-message` header accessors `Subject`, `MessageID` and
`MsgIDList "References"` are modelled as their results: `none` stands for a
parse error (the source then leaves the zero value in place), `some v` for a
successful parse. -/

/-- Embedding of the source's `containsString` helper. -/
def containsString (values : List String) (target : String) : Bool :=
  values.any (fun v => v == target)

structure ThreadMetadata where
  Subject : String
  MessageID : String
  References : List String
deriving DecidableEq, Repr

/-- Embedding of `extractThreadMetadata`: fields default to their zero values
on header-parse errors; the Message-ID is appended to the references exactly
when it is non-empty and `containsString` does not find it anywhere. -/
def extractThreadMetadata (subj mid : Option String) (refs : Option (List String)) :
    ThreadMetadata :=
  if mid.getD "" ≠ "" ∧ containsString (refs.getD []) (mid.getD "") = false then
    ⟨subj.getD "", mid.getD "", refs.getD [] ++ [mid.getD ""]⟩
  else
    ⟨subj.getD "", mid.getD "", refs.getD []⟩

/-! ## Reply subject (replier.go lines 353-362 and 256-259) -/

/-- Embedding of `normalizeReplySubject`. -/
def normalizeReplySubject (subject : String) : String :=
  let trimmed := trimSpace subject
  if trimmed = "" then ""
  else if hasPfx (toLowerS trimmed).data "re:".data then trimmed
  else "Re: " ++ trimmed

/-- Embedding of the subject computation inside `buildReplyMessage`
(an absent original subject is the empty string, per `extractThreadMetadata`). -/
def composeSubject (subject : String) : String :=
  let s := normalizeReplySubject subject
  if s = "" then "Re:" else s

/-! ## Recipient selection (replier.go lines 115-153)

The library parser `mail.ParseAddress` is abstracted as an explicit argument
`parse : String → Option EmailAddress` (`none` = parse error), and a decoded
header is its two relevant `AddressList` results (`none` = the call errored,
which the source skips with `continue`). -/

structure EmailAddress where
  name : String
  address : String
deriving DecidableEq, Repr

structure MailHeaderAddrs where
  replyTo : Option (List EmailAddress)
  fromAddrs : Option (List EmailAddress)

/-- Embedding of `normalizeRecipientAddress`: trim whitespace, strip one
surrounding pair of angle brackets, then return the parsed address, or the
bare string itself when it has exactly one at-sign and neither a space nor a
tab, or the empty string (meaning: no envelope candidate). -/
def normalizeRecipientAddress (parse : String → Option EmailAddress) (value : String) :
    String :=
  if trimAngles (trimSpace value) = "" then ""
  else
    match parse (trimAngles (trimSpace value)) with
    | some a => a.address
    | none =>
      if countChar (trimAngles (trimSpace value)) '@' = 1
          ∧ containsSpaceOrTab (trimAngles (trimSpace value)) = false then
        trimAngles (trimSpace value)
      else ""

/-- Inner loop of `selectReplyRecipient`: first parsed address whose address
field is non-empty, for one header key. -/
def firstNonEmptyAddress : Option (List EmailAddress) → Option String
  | none => none
  | some addrs => (addrs.find? (fun a => a.address != "")).map (·.address)

/-- Embedding of `selectReplyRecipient`: envelope candidate first, then the
Reply-To list, then the From list, else the no-recipient error. -/
def selectReplyRecipient (parse : String → Option EmailAddress) (envelopeFrom : String)
    (hdr : MailHeaderAddrs) : Except String String :=
  if normalizeRecipientAddress parse envelopeFrom ≠ "" then
    .ok (normalizeRecipientAddress parse envelopeFrom)
  else
    match firstNonEmptyAddress hdr.replyTo with
    | some a => .ok a
    | none =>
      match firstNonEmptyAddress hdr.fromAddrs with
      | some a => .ok a
      | none => .error "unable to determine reply recipient"

/-- Statement of claim C1's precedence rule in the spec's own shape: an
`Option`-chain of envelope candidate (parsed address or lenient bare-string
fallback), then first Reply-To address, then first From address. `none`
means the no-recipient failure. -/
def selectReplySpec (parse : String → Option EmailAddress) (envelopeFrom : String)
    (hdr : MailHeaderAddrs) : Option String :=
  (match parse (trimAngles (trimSpace envelopeFrom)) with
    | some a => some a.address
    | none =>
      if countChar (trimAngles (trimSpace envelopeFrom)) '@' = 1
          ∧ containsSpaceOrTab (trimAngles (trimSpace envelopeFrom)) = false then
        some (trimAngles (trimSpace envelopeFrom))
      else none)
  <|> (hdr.replyTo.getD []).head?.map (·.address)
  <|> (hdr.fromAddrs.getD []).head?.map (·.address)

/-- Parser stand-in that rejects every input, used by concrete witnesses. -/
def parseNone : String → Option EmailAddress := fun _ => none

/-! ## Reply body finalization (replier.go lines 194-209) -/

structure ReplyBody where
  Plain : String
  HTML : String
deriving DecidableEq, Repr

/-- Embedding of the last step of `readReplyBody` (lines 205-207): when the
Plain accumulator is empty and the HTML accumulator is not, Plain is
synthesized with `htmlToText`. -/
def finalizeReplyBody (b : ReplyBody) : ReplyBody :=
  if b.Plain = "" ∧ b.HTML ≠ "" then { b with Plain := htmlToText b.HTML } else b

/-! ## Reply body composition (replier.go lines 279-350)

The `go-message` writers serialize parts to MIME bytes; the embedded function
captures exactly the part-selection contract: which parts, with which
contents, in which order. A `plainPart` is written through
`CreateSingleInlineWriter` (single-body case) or as a
`text/plain; charset=utf-8` inline part; an `htmlPart` is a
`text/html; charset=utf-8` inline part of the `multipart/alternative` body. -/

inductive ReplyPart where
  | plainPart (content : String)
  | htmlPart (content : String)
deriving DecidableEq, Repr

/-- Embedding of the body logic of `buildReplyMessage`: force a lone newline
when both components are empty; a single plain part when HTML is empty;
otherwise a plain part (synthesized from HTML when Plain is empty, again with
a newline floor) followed by the HTML verbatim. -/
def buildReplyBodyParts (body : ReplyBody) : List ReplyPart :=
  let plainBody := body.Plain
  let htmlBody := body.HTML
  let plainBody := if plainBody = "" ∧ htmlBody = "" then "\n" else plainBody
  if htmlBody = "" then [.plainPart plainBody]
  else
    let plainBody :=
      if plainBody = "" then
        let t := htmlToText htmlBody
        if t = "" then "\n" else t
      else plainBody
    [.plainPart plainBody, .htmlPart htmlBody]

/-! ## MX selection (replier.go lines 364-420)

`net.DefaultResolver.LookupMX` is abstracted as its outcome: an optional
error string plus the record list (Go's resolver may return both).
`sort.Slice` with the `Pref` comparison is abstracted as an explicit
`sortSlice` argument, because Go documents its result only as a permutation
sorted by the comparison and explicitly *not* stable; its implementation
runs a stable insertion sort exactly on ranges of at most 12 elements (the
`pdqsort` base case), which `goSortMX` models. Theorems over
`computeTargetHosts` carry precisely this contract as hypotheses. -/

structure MXRecord where
  host : String
  pref : Nat
deriving DecidableEq, Repr

/-- Insertion step of the stable insertion sort that `sort.Slice` runs on
ranges of at most 12 elements: the new element is placed before the first
strictly greater preference, hence after every already-present record with
an equal preference. -/
def insertGo (a : MXRecord) : List MXRecord → List MXRecord
  | [] => [a]
  | b :: l => if a.pref < b.pref then a :: b :: l else b :: insertGo a l

/-- The stable insertion sort with the `Pref` comparison, processing records
in resolver order: the base case `sort.Slice` runs on ranges of at most 12
elements. For longer slices `sort.Slice` is documented not stable, so this
is not used as an unconditional model of it — see `computeTargetHosts`. -/
def goSortMX (l : List MXRecord) : List MXRecord :=
  l.foldl (fun acc r => insertGo r acc) []

/-- Embedding of `deliverDirect` lines 375-391: the ordered target-host list
and the initial `attemptErrors` slice. A lookup error or an empty record set
falls back to the bare domain; a lookup error is recorded first. The
`sortSlice` argument abstracts the `sort.Slice` library call; theorems
constrain it by the documented contract (sorted permutation) plus the
insertion-sort base case on at most 12 records. -/
def computeTargetHosts (sortSlice : List MXRecord → List MXRecord)
    (lookupErr : Option String) (records : List MXRecord)
    (domain : String) : List String × List String :=
  let hosts :=
    if lookupErr = none ∧ records ≠ [] then
      (sortSlice records).map (fun r => normalizeMXHost r.host)
    else [domain]
  let errs :=
    match lookupErr with
    | some e => ["mx lookup: " ++ e]
    | none => []
  (hosts, errs)

/-- Thirteen-record resolver answer with a preference tie in front, one
record beyond the range on which `sort.Slice` runs its stable base case. -/
def mxRecords13 : List MXRecord :=
  [⟨"tie-a", 10⟩, ⟨"tie-b", 10⟩, ⟨"c", 20⟩, ⟨"d", 30⟩, ⟨"e", 40⟩, ⟨"f", 50⟩,
   ⟨"g", 60⟩, ⟨"h", 70⟩, ⟨"i", 80⟩, ⟨"j", 90⟩, ⟨"k", 100⟩, ⟨"l", 110⟩,
   ⟨"m", 120⟩]

/-- A `sort.Slice` outcome for `mxRecords13` that is sorted ascending by
preference and a permutation of the records — everything Go documents for
`sort.Slice` — but with the tied pair in the opposite of resolver order. -/
def mxTieSwapped13 : List MXRecord :=
  [⟨"tie-b", 10⟩, ⟨"tie-a", 10⟩, ⟨"c", 20⟩, ⟨"d", 30⟩, ⟨"e", 40⟩, ⟨"f", 50⟩,
   ⟨"g", 60⟩, ⟨"h", 70⟩, ⟨"i", 80⟩, ⟨"j", 90⟩, ⟨"k", 100⟩, ⟨"l", 110⟩,
   ⟨"m", 120⟩]

/-- Adversarial but contract-compliant instance of the `sortSlice` oracle:
it agrees with the stable insertion sort on every list of at most 12 records
(and on every other list except `mxRecords13`), and returns the tie-swapped
sorted permutation on `mxRecords13` itself — behavior `sort.Slice`'s
documentation permits beyond its stable base case. -/
def sortSliceTieBreak (l : List MXRecord) : List MXRecord :=
  if l = mxRecords13 then mxTieSwapped13 else goSortMX l

/-! ## Delivery loop (replier.go lines 388-407)

`sendToHost` is abstracted as `send : String → Option String` (`none` =
the full transfer succeeded, `some detail` = the attempt failed with that
detail). The context is sampled once per iteration through the non-blocking
`select` on `ctx.Done()`; it is modelled by the number of checks that pass
before the context reports done (`none` = never cancelled). -/

inductive LoopResult where
  | delivered
  | cancelled
  | exhausted (errs : List String)
deriving DecidableEq, Repr

/-- One-step countdown of the cancellation budget between host attempts. -/
def tickCancel : Option Nat → Option Nat
  | some (n + 1) => some n
  | o => o

/-- Embedding of the host loop of `deliverDirect`: returns the hosts actually
attempted, in order, together with the outcome. `exhausted errs` corresponds
to the final aggregated delivery error over `errs`. -/
def deliverLoop (send : String → Option String) :
    Option Nat → List String → List String → List String × LoopResult
  | _, [], errs => ([], .exhausted errs)
  | c, h :: rest, errs =>
    if c = some 0 then ([], .cancelled)
    else
      match send h with
      | none => ([h], .delivered)
      | some e =>
        let p := deliverLoop send (tickCancel c) rest (errs ++ [h ++ ": " ++ e])
        (h :: p.1, p.2)

/-- Composition of MX selection and the host loop, following `deliverDirect`
after recipient parsing and domain derivation. -/
def deliverDirect (sortSlice : List MXRecord → List MXRecord)
    (send : String → Option String) (cancelIn : Option Nat)
    (lookupErr : Option String) (records : List MXRecord) (domain : String) :
    List String × LoopResult :=
  let hostsErrs := computeTargetHosts sortSlice lookupErr records domain
  deliverLoop send cancelIn hostsErrs.1 hostsErrs.2

/-! ## DKIM signer (modelled from the spec)

Modelled from the spec: the DKIM-enabled `NewReplier` initialization and the
signing step before delivery are not present under `src/` (only their tests in
the test file and the `DKIMConfig` schema in `internal/config` are). Per spec
section 4.6: initialization loads the key and accepts only RSA-family keys,
failing fast otherwise; when active, every composed reply is signed (a
signature header is prepended) before transmission, and a signing failure
aborts delivery of that message. The key material is abstracted as its
algorithm family, and the cryptographic signing call as its outcome. -/

inductive KeyAlgorithm where
  | rsa
  | ecdsa
  | ed25519
  | other
deriving DecidableEq, Repr

structure DKIMOptions where
  domain : String
  selector : String
  identifier : String
deriving DecidableEq, Repr

/-- Modelled from the spec: an outbound message as its header list (name,
value) plus body; only the presence and position of the signature header
matter to the claims. -/
structure OutMessage where
  headers : List (String × String)
  body : String
deriving DecidableEq, Repr

/-- Modelled from the spec: signer initialization inside `NewReplier`.
Absent signing configuration yields no signer; a present configuration with a
non-RSA key fails initialization (the error text follows the test's
expectation); an RSA key yields an active signer. -/
def initDKIMSigner (dkim : Option DKIMOptions) (keyAlg : KeyAlgorithm) :
    Except String (Option DKIMOptions) :=
  match dkim with
  | none => .ok none
  | some opts =>
    if keyAlg = .rsa then .ok (some opts) else .error "dkim: use RSA private key"

/-- Modelled from the spec: the signing call over a composed reply.
`signOutcome` abstracts the cryptographic library call: `some sig` is the
produced signature value, `none` a signing failure. -/
def signReply (signOutcome : Option String) (m : OutMessage) : Except String OutMessage :=
  match signOutcome with
  | some sig => .ok ⟨("DKIM-Signature", sig) :: m.headers, m.body⟩
  | none => .error "dkim sign failed"

/-- Modelled from the spec: the message actually handed to delivery — signed
when a signer is active, unchanged when not; a signing failure yields an
error and nothing is delivered. -/
def finalizeForDelivery (signer : Option DKIMOptions) (signOutcome : Option String)
    (m : OutMessage) : Except String OutMessage :=
  match signer with
  | none => .ok m
  | some _ => signReply signOutcome m

/-! ## SMTP session state (internal/echo/server.go) -/

structure Session where
  envelopeFrom : String
  recipients : List String
deriving DecidableEq, Repr

structure InboundMessage where
  EnvelopeFrom : String
  Recipients : List String
  Data : String
deriving DecidableEq, Repr

/-- Embedding of `session.Mail`: records the envelope sender and truncates the
recipient slice to length zero. -/
def sessionMail (_ : Session) (from_ : String) : Session :=
  ⟨from_, []⟩

/-- Embedding of `session.Rcpt`: appends one recipient. -/
def sessionRcpt (s : Session) (rcptTo : String) : Session :=
  { s with recipients := s.recipients ++ [rcptTo] }

/-- Embedding of `session.Reset`. -/
def sessionReset (_ : Session) : Session :=
  ⟨"", []⟩

/-- Embedding of `session.Data` up to the construction of the
`InboundMessage` handed to the processor: fails without a recipient, else
copies the accumulated state. -/
def sessionData (s : Session) (data : String) : Except String InboundMessage :=
  if s.recipients = [] then .error "at least one recipient is required"
  else .ok ⟨s.envelopeFrom, s.recipients, data⟩

/-! ## Helper lemmas -/

theorem containsString_iff {l : List String} {t : String} :
    containsString l t = true ↔ t ∈ l := by
  unfold containsString
  rw [List.any_eq_true]
  constructor
  · rintro ⟨x, hx, hbeq⟩
    rw [beq_iff_eq] at hbeq
    exact hbeq ▸ hx
  · intro h
    exact ⟨t, h, beq_self_eq_true t⟩

theorem containsString_false_iff {l : List String} {t : String} :
    containsString l t = false ↔ t ∉ l := by
  rw [← Bool.not_eq_true, not_iff_not, containsString_iff]

/-- C2: for every decoded header, whenever the extracted Message-ID is
non-empty it is a member of the returned References; it is appended (and is
then the last element) exactly when it does not already occur anywhere in the
parsed References, which are otherwise returned unchanged. -/
theorem extractThreadMetadata_lastref (subj mid : Option String)
    (refs : Option (List String))
    (h : (extractThreadMetadata subj mid refs).MessageID ≠ "") :
    (extractThreadMetadata subj mid refs).MessageID ∈
        (extractThreadMetadata subj mid refs).References
    ∧ ((extractThreadMetadata subj mid refs).MessageID ∉ refs.getD [] →
        (extractThreadMetadata subj mid refs).References
            = refs.getD [] ++ [(extractThreadMetadata subj mid refs).MessageID]
        ∧ (extractThreadMetadata subj mid refs).References.getLast?
            = some (extractThreadMetadata subj mid refs).MessageID)
    ∧ ((extractThreadMetadata subj mid refs).MessageID ∈ refs.getD [] →
        (extractThreadMetadata subj mid refs).References = refs.getD []) := by
  have hmid : (extractThreadMetadata subj mid refs).MessageID = mid.getD "" := by
    unfold extractThreadMetadata
    split <;> rfl
  rw [hmid] at h ⊢
  by_cases hc : containsString (refs.getD []) (mid.getD "") = false
  · have hnotmem := containsString_false_iff.mp hc
    have hrefs : (extractThreadMetadata subj mid refs).References
        = refs.getD [] ++ [mid.getD ""] := by
      unfold extractThreadMetadata
      simp [h, hc]
    refine ⟨?_, fun _ => ⟨hrefs, ?_⟩, fun hmem => absurd hmem hnotmem⟩
    · rw [hrefs]; simp
    · rw [hrefs]; simp
  · have hmem := containsString_iff.mp (by
      cases hb : containsString (refs.getD []) (mid.getD "") with
      | false => exact absurd hb hc
      | true => rfl)
    have hrefs : (extractThreadMetadata subj mid refs).References = refs.getD [] := by
      unfold extractThreadMetadata
      simp [hc]
    exact ⟨hrefs ▸ hmem, fun hn => absurd hmem hn, fun _ => hrefs⟩

/-- Witness for the C2 theorem at the spec's own example: Message-ID
`m1@x` with parsed References `[root@x]`. -/
theorem extractThreadMetadata_lastref_w :
    (extractThreadMetadata none (some "m1@x") (some ["root@x"])).MessageID ≠ ""
    ∧ (extractThreadMetadata none (some "m1@x") (some ["root@x"])).References
        = ["root@x", "m1@x"]
    ∧ (extractThreadMetadata none (some "m1@x") (some ["root@x"])).References.getLast?
        = some (extractThreadMetadata none (some "m1@x") (some ["root@x"])).MessageID :=
  ⟨by decide,
   by decide,
   ((extractThreadMetadata_lastref none (some "m1@x") (some ["root@x"])
      (by decide)).2.1 (by decide)).2⟩

/-- C2 counterexample: with Message-ID `m1@x` and parsed References
`[m1@x, root@x]`, the Message-ID already occurs (but not as the trailing
entry), so the source appends nothing and the returned References do not end
with the Message-ID. -/
theorem extractThreadMetadata_not_trailing_cex :
    (extractThreadMetadata none (some "m1@x") (some ["m1@x", "root@x"])).MessageID ≠ ""
    ∧ (extractThreadMetadata none (some "m1@x") (some ["m1@x", "root@x"])).References
        = ["m1@x", "root@x"]
    ∧ (extractThreadMetadata none (some "m1@x") (some ["m1@x", "root@x"])).References.getLast?
        ≠ some (extractThreadMetadata none (some "m1@x")
            (some ["m1@x", "root@x"])).MessageID := by
  decide

/-- C7: whenever the Plain accumulator is empty and the HTML accumulator is
not, the finalized body synthesizes Plain from the HTML through
`htmlToText` (strip tags, decode entities, collapse whitespace), and the
spec's concrete example evaluates exactly as stated. -/
theorem readReplyBody_htmlSynthesis :
    (∀ b : ReplyBody, b.Plain = "" → b.HTML ≠ "" →
        finalizeReplyBody b = ⟨htmlToText b.HTML, b.HTML⟩)
    ∧ htmlToText "<div>Hello <b>there</b>&amp;friends</div>" = "Hello there &friends" := by
  constructor
  · intro b h1 h2
    cases b
    simp_all [finalizeReplyBody]
  · decide

/-- Witness for the C7 theorem at the spec's HTML-only example. -/
theorem readReplyBody_htmlSynthesis_w :
    ("" : String) = ""
    ∧ ("<div>Hello <b>there</b>&amp;friends</div>" : String) ≠ ""
    ∧ finalizeReplyBody ⟨"", "<div>Hello <b>there</b>&amp;friends</div>"⟩
        = ⟨"Hello there &friends", "<div>Hello <b>there</b>&amp;friends</div>"⟩ :=
  ⟨rfl, by decide,
   (readReplyBody_htmlSynthesis.1 ⟨"", "<div>Hello <b>there</b>&amp;friends</div>"⟩
      rfl (by decide)).trans (by decide)⟩

theorem stringAppend_ReSpace_ne_empty (t : String) : "Re: " ++ t ≠ "" := by
  intro h
  have hd : ("Re: " ++ t).data = ("" : String).data := congrArg String.data h
  simp [String.data_append] at hd

/-- C8 counterexample: for the original subject `" Hello"` (leading space),
which is non-empty and does not start with `re:` case-insensitively, the
composed subject is not the original prefixed with `Re: ` — the source trims
the subject first. -/
theorem composeSubject_trim_cex :
    (" Hello" : String) ≠ ""
    ∧ hasPfx (toLowerS " Hello").data "re:".data = false
    ∧ composeSubject " Hello" ≠ "Re: " ++ " Hello"
    ∧ composeSubject " Hello" = "Re: Hello" := by
  decide

/-- C8 (amended): the composed Subject equals the whitespace-trimmed original
prefixed with `Re: ` unless the trimmed original starts with `re:`
case-insensitively (then the composed Subject is the trimmed original), and
equals the literal `Re:` when the trimmed original is empty (in particular
when the subject is absent). -/
theorem composeSubject_spec (s : String) :
    (trimSpace s = "" → composeSubject s = "Re:")
    ∧ (trimSpace s ≠ "" → hasPfx (toLowerS (trimSpace s)).data "re:".data = true →
        composeSubject s = trimSpace s)
    ∧ (trimSpace s ≠ "" → hasPfx (toLowerS (trimSpace s)).data "re:".data = false →
        composeSubject s = "Re: " ++ trimSpace s) := by
  refine ⟨fun h0 => ?_, fun h0 h1 => ?_, fun h0 h1 => ?_⟩
  · simp [composeSubject, normalizeReplySubject, h0]
  · simp [composeSubject, normalizeReplySubject, h0, h1]
  · simp [composeSubject, normalizeReplySubject, h0, h1,
      stringAppend_ReSpace_ne_empty (trimSpace s)]

/-- Witness for the C8 theorem at the spec's three examples. -/
theorem composeSubject_spec_w :
    (trimSpace "Hello" ≠ ""
      ∧ hasPfx (toLowerS (trimSpace "Hello")).data "re:".data = false
      ∧ composeSubject "Hello" = "Re: Hello")
    ∧ (trimSpace "Re: Hello" ≠ ""
      ∧ hasPfx (toLowerS (trimSpace "Re: Hello")).data "re:".data = true
      ∧ composeSubject "Re: Hello" = "Re: Hello")
    ∧ (trimSpace "" = "" ∧ composeSubject "" = "Re:") :=
  ⟨⟨by decide, by decide,
      ((composeSubject_spec "Hello").2.2 (by decide) (by decide)).trans (by decide)⟩,
   ⟨by decide, by decide,
      ((composeSubject_spec "Re: Hello").2.1 (by decide) (by decide)).trans (by decide)⟩,
   ⟨by decide, (composeSubject_spec "").1 (by decide)⟩⟩

/-- C6 counterexample: for an extraction with empty Plain and HTML `<br>`
(whose derived text is empty), the multipart plain part holds a forced
newline, not the HTML-derived text required by the claim. -/
theorem buildReplyBodyParts_derivedEmpty_cex :
    htmlToText "<br>" = ""
    ∧ buildReplyBodyParts ⟨"", "<br>"⟩
        ≠ [.plainPart (htmlToText "<br>"), .htmlPart "<br>"]
    ∧ buildReplyBodyParts ⟨"", "<br>"⟩ = [.plainPart "\n", .htmlPart "<br>"] := by
  decide

/-- C6 (amended): if the HTML component is empty the body is a single
text/plain part holding Plain (a single newline when both components are
empty); otherwise it is multipart/alternative with exactly two inline parts
in order — text/plain holding Plain, or the HTML-derived text when Plain is
empty, forced to a single newline when that derived text is itself empty,
followed by text/html holding the HTML verbatim. -/
theorem buildReplyBodyParts_spec (body : ReplyBody) :
    (body.HTML = "" → buildReplyBodyParts body
        = [.plainPart (if body.Plain = "" then "\n" else body.Plain)])
    ∧ (body.HTML ≠ "" → buildReplyBodyParts body
        = [.plainPart (if body.Plain = "" then
              (if htmlToText body.HTML = "" then "\n" else htmlToText body.HTML)
            else body.Plain),
           .htmlPart body.HTML]) := by
  constructor
  · intro h
    by_cases hp : body.Plain = "" <;> simp [buildReplyBodyParts, h, hp]
  · intro h
    by_cases hp : body.Plain = "" <;> simp [buildReplyBodyParts, h, hp]

/-- Witness for the C6 theorem at the spec's multipart example: plain part
`P` with HTML part `<b>H</b>`. -/
theorem buildReplyBodyParts_spec_w :
    (("<b>H</b>" : String) ≠ ""
      ∧ buildReplyBodyParts ⟨"P", "<b>H</b>"⟩
          = [.plainPart "P", .htmlPart "<b>H</b>"])
    ∧ (("" : String) = ""
      ∧ buildReplyBodyParts ⟨"P2", ""⟩ = [.plainPart "P2"]) :=
  ⟨⟨by decide,
      ((buildReplyBodyParts_spec ⟨"P", "<b>H</b>"⟩).2 (by decide)).trans (by decide)⟩,
   ⟨rfl, ((buildReplyBodyParts_spec ⟨"P2", ""⟩).1 rfl).trans (by decide)⟩⟩

/-- C5: with a signing configuration present initialization rejects every
non-RSA key (fail-fast), succeeds with an RSA key, and when a signer is
active every message that reaches delivery carries a prepended
DKIM-Signature header while a signing failure aborts delivery of the
message entirely. Modelled from the spec (section 4.6): the DKIM signer code
is absent from the provided sources. -/
theorem dkimSigner_spec :
    (∀ (opts : DKIMOptions) (alg : KeyAlgorithm), alg ≠ .rsa →
        initDKIMSigner (some opts) alg = .error "dkim: use RSA private key")
    ∧ (∀ opts : DKIMOptions, initDKIMSigner (some opts) .rsa = .ok (some opts))
    ∧ (∀ (opts : DKIMOptions) (outcome : Option String) (m out : OutMessage),
        finalizeForDelivery (some opts) outcome m = .ok out →
        ∃ sig, out.headers = ("DKIM-Signature", sig) :: m.headers)
    ∧ (∀ (opts : DKIMOptions) (m : OutMessage),
        finalizeForDelivery (some opts) none m = .error "dkim sign failed") := by
  refine ⟨fun opts alg h => ?_, fun opts => rfl, ?_, fun opts m => rfl⟩
  · simp [initDKIMSigner, h]
  · intro opts outcome m out h
    cases outcome with
    | none => exact absurd h (by simp [finalizeForDelivery, signReply])
    | some sig =>
      refine ⟨sig, ?_⟩
      simp [finalizeForDelivery, signReply] at h
      rw [← h]

/-- Witness for the C5 theorem: an ECDSA key is rejected, an RSA key is
accepted, a successful signature prepends the header, a failed signature
yields an error instead of a message. -/
theorem dkimSigner_spec_w :
    KeyAlgorithm.ecdsa ≠ KeyAlgorithm.rsa
    ∧ initDKIMSigner (some ⟨"d.net", "s1", ""⟩) .ecdsa = .error "dkim: use RSA private key"
    ∧ initDKIMSigner (some ⟨"d.net", "s1", ""⟩) .rsa = .ok (some ⟨"d.net", "s1", ""⟩)
    ∧ (∃ sig, (OutMessage.mk [("DKIM-Signature", "sigval"), ("Subject", "Re:")] "b").headers
        = ("DKIM-Signature", sig) :: [("Subject", "Re:")])
    ∧ finalizeForDelivery (some ⟨"d.net", "s1", ""⟩) none ⟨[("Subject", "Re:")], "b"⟩
        = .error "dkim sign failed" :=
  ⟨by decide,
   dkimSigner_spec.1 ⟨"d.net", "s1", ""⟩ .ecdsa (by decide),
   dkimSigner_spec.2.1 ⟨"d.net", "s1", ""⟩,
   dkimSigner_spec.2.2.1 ⟨"d.net", "s1", ""⟩ (some "sigval") ⟨[("Subject", "Re:")], "b"⟩
     ⟨[("DKIM-Signature", "sigval"), ("Subject", "Re:")], "b"⟩ rfl,
   dkimSigner_spec.2.2.2 ⟨"d.net", "s1", ""⟩ ⟨[("Subject", "Re:")], "b"⟩⟩

theorem foldl_sessionRcpt (rcpts : List String) :
    ∀ (f : String) (acc : List String),
      rcpts.foldl sessionRcpt ⟨f, acc⟩ = ⟨f, acc ++ rcpts⟩ := by
  induction rcpts with
  | nil => intro f acc; simp
  | cons r t ih =>
    intro f acc
    simp only [List.foldl_cons, sessionRcpt]
    rw [ih]
    simp

/-- C10: the Mail callback resets the accumulated recipients along with the
envelope sender, so the InboundMessage built by a later Data callback holds
exactly the recipients declared after the most recent Mail, whatever the
session state (including recipients of an earlier transaction) was before. -/
theorem sessionMail_isolates_recipients (s : Session) (f : String)
    (rcpts : List String) (data : String) (h : rcpts ≠ []) :
    sessionData (rcpts.foldl sessionRcpt (sessionMail s f)) data
      = .ok ⟨f, rcpts, data⟩ := by
  show sessionData (rcpts.foldl sessionRcpt ⟨f, []⟩) data = _
  rw [foldl_sessionRcpt]
  simp [sessionData, h]

/-- Witness for the C10 theorem: a session carrying a stale recipient from an
earlier transaction, then Mail, one Rcpt and Data. -/
theorem sessionMail_isolates_recipients_w :
    (["r1@x.net"] : List String) ≠ []
    ∧ sessionData
        ((["r1@x.net"] : List String).foldl sessionRcpt
          (sessionMail ⟨"old@x.net", ["stale@x.net"]⟩ "new@x.net")) "hello"
      = .ok ⟨"new@x.net", ["r1@x.net"], "hello"⟩ :=
  ⟨by decide,
   sessionMail_isolates_recipients ⟨"old@x.net", ["stale@x.net"]⟩ "new@x.net"
     ["r1@x.net"] "hello" (by decide)⟩

/-! ## Recipient selection: C1 -/

theorem find?_nonEmpty_eq_head? (l : List EmailAddress)
    (h : ∀ a ∈ l, a.address ≠ "") :
    l.find? (fun a => a.address != "") = l.head? := by
  cases l with
  | nil => rfl
  | cons a t =>
    have ha : (a.address != "") = true := bne_iff_ne.mpr (h a (List.mem_cons_self a t))
    simp [List.find?, ha]

theorem firstNonEmptyAddress_eq_head (o : Option (List EmailAddress))
    (h : ∀ a ∈ o.getD [], a.address ≠ "") :
    firstNonEmptyAddress o = (o.getD []).head?.map (·.address) := by
  cases o with
  | none => rfl
  | some l =>
    show (l.find? (fun a => a.address != "")).map (·.address) = _
    rw [find?_nonEmpty_eq_head? l (by simpa using h)]
    rfl

/-- C1: the reply recipient is selected by first-match precedence — the
normalized envelope sender when it parses to an address or passes the
lenient bare-string fallback (exactly one at-sign, no space or tab), else
the first address of the Reply-To header, else the first address of the From
header, else the no-recipient error. The hypotheses state the parser
contract: a successfully parsed address is never the empty string, and the
empty input never parses. -/
theorem selectReplyRecipient_precedence
    (parse : String → Option EmailAddress) (envelopeFrom : String)
    (hdr : MailHeaderAddrs)
    (hp : ∀ s a, parse s = some a → a.address ≠ "")
    (hp0 : parse "" = none)
    (hrt : ∀ a ∈ hdr.replyTo.getD [], a.address ≠ "")
    (hfr : ∀ a ∈ hdr.fromAddrs.getD [], a.address ≠ "") :
    selectReplyRecipient parse envelopeFrom hdr =
      match selectReplySpec parse envelopeFrom hdr with
      | some r => .ok r
      | none => .error "unable to determine reply recipient" := by
  have hORk : ∀ x y : Option String,
      (match x with
       | some a => (Except.ok a : Except String String)
       | none =>
         match y with
         | some a => Except.ok a
         | none => Except.error "unable to determine reply recipient") =
      match (x <|> y) with
      | some r => Except.ok r
      | none => Except.error "unable to determine reply recipient" := by
    intro x y
    cases x <;> cases y <;> rfl
  unfold selectReplyRecipient selectReplySpec normalizeRecipientAddress
  rw [firstNonEmptyAddress_eq_head _ hrt, firstNonEmptyAddress_eq_head _ hfr]
  by_cases h0 : trimAngles (trimSpace envelopeFrom) = ""
  · rw [h0, hp0]
    have hne : ¬ (countChar "" '@' = 1 ∧ containsSpaceOrTab "" = false) := by decide
    cases hr : (hdr.replyTo.getD []).head? with
    | some a => simp [hne, hr]
    | none =>
      cases hf : (hdr.fromAddrs.getD []).head? with
      | some a => simp [hne, hr, hf]
      | none => simp [hne, hr, hf]
  · cases hparse : parse (trimAngles (trimSpace envelopeFrom)) with
    | some a =>
      have ha : a.address ≠ "" := hp _ a hparse
      simp [h0, hparse, ha]
    | none =>
      by_cases hcond : countChar (trimAngles (trimSpace envelopeFrom)) '@' = 1
          ∧ containsSpaceOrTab (trimAngles (trimSpace envelopeFrom)) = false
      · simp [h0, hparse, hcond]
      · cases hr : (hdr.replyTo.getD []).head? with
        | some a => simp [h0, hparse, hcond, hr]
        | none =>
          cases hf : (hdr.fromAddrs.getD []).head? with
          | some a => simp [h0, hparse, hcond, hr, hf]
          | none => simp [h0, hparse, hcond, hr, hf]

/-- Witness for the C1 theorem at the spec's two examples, instantiated with
the always-failing parser stand-in (the lenient fallback then carries the
envelope case). -/
theorem selectReplyRecipient_precedence_w :
    (∀ s a, parseNone s = some a → a.address ≠ "")
    ∧ parseNone "" = none
    ∧ selectReplyRecipient parseNone "env@example.net"
        ⟨some [⟨"", "reply@example.net"⟩], some [⟨"", "from@example.net"⟩]⟩
      = .ok "env@example.net"
    ∧ selectReplyRecipient parseNone ""
        ⟨some [⟨"", "r@x.net"⟩], some [⟨"", "f@x.net"⟩]⟩
      = .ok "r@x.net" :=
  ⟨fun _ _ h => Option.noConfusion h, rfl,
   (selectReplyRecipient_precedence parseNone "env@example.net"
      ⟨some [⟨"", "reply@example.net"⟩], some [⟨"", "from@example.net"⟩]⟩
      (fun _ _ h => Option.noConfusion h) rfl (by decide) (by decide)).trans rfl,
   (selectReplyRecipient_precedence parseNone ""
      ⟨some [⟨"", "r@x.net"⟩], some [⟨"", "f@x.net"⟩]⟩
      (fun _ _ h => Option.noConfusion h) rfl (by decide) (by decide)).trans rfl⟩

/-! ## Delivery loop: C4 and C9 -/

theorem deliverLoop_allFail (send : String → Option String) (f : String → String) :
    ∀ (hosts errs : List String),
      (∀ h ∈ hosts, send h = some (f h)) →
      deliverLoop send none hosts errs
        = (hosts, .exhausted (errs ++ hosts.map (fun h => h ++ ": " ++ f h))) := by
  intro hosts
  induction hosts with
  | nil => intro errs _; simp [deliverLoop]
  | cons h t ih =>
    intro errs H
    have hs : send h = some (f h) := H h (List.mem_cons_self h t)
    simp only [deliverLoop, if_neg (by simp : ¬ (none : Option Nat) = some 0), hs,
      tickCancel]
    rw [ih _ (fun x hx => H x (List.mem_cons_of_mem h hx))]
    simp

theorem deliverLoop_firstSuccessL (send : String → Option String) (f : String → String) :
    ∀ (pre : List String) (hS : String) (post errs : List String),
      (∀ h ∈ pre, send h = some (f h)) → send hS = none →
      deliverLoop send none (pre ++ hS :: post) errs = (pre ++ [hS], .delivered) := by
  intro pre
  induction pre with
  | nil =>
    intro hS post errs _ hsucc
    simp [deliverLoop, hsucc]
  | cons h t ih =>
    intro hS post errs H hsucc
    have hs : send h = some (f h) := H h (List.mem_cons_self h t)
    simp only [List.cons_append, deliverLoop,
      if_neg (by simp : ¬ (none : Option Nat) = some 0), hs, tickCancel,
      List.append_eq]
    rw [ih hS post _ (fun x hx => H x (List.mem_cons_of_mem h hx)) hsucc]

/-- C4: hosts are attempted strictly in list order; the first full-transfer
success ends the loop immediately with the successful host last in the
attempted list and later hosts untouched; every failed host contributes
exactly one recorded detail and is not retried; when every host fails the
loop returns the aggregate of the initial (resolution) failures followed by
each host's detail in attempt order. -/
theorem deliverLoop_firstSuccess_aggregate (send : String → Option String)
    (f : String → String) :
    (∀ (hosts errs : List String), (∀ h ∈ hosts, send h = some (f h)) →
        deliverLoop send none hosts errs
          = (hosts, .exhausted (errs ++ hosts.map (fun h => h ++ ": " ++ f h))))
    ∧ (∀ (pre : List String) (hS : String) (post errs : List String),
        (∀ h ∈ pre, send h = some (f h)) → send hS = none →
        deliverLoop send none (pre ++ hS :: post) errs = (pre ++ [hS], .delivered)) :=
  ⟨deliverLoop_allFail send f, deliverLoop_firstSuccessL send f⟩

/-- Witness for the C4 theorem: two failing hosts aggregate the recorded
resolution failure plus both details in order; a succeeding host after one
failure ends the loop without touching the remaining host. -/
theorem deliverLoop_firstSuccess_aggregate_w :
    (∀ h ∈ (["x.net", "y.net"] : List String),
        (fun h => if h == "good.net" then none else some "dial failed") h
          = some ((fun _ => "dial failed") h))
    ∧ deliverLoop (fun h => if h == "good.net" then none else some "dial failed") none
        ["x.net", "y.net"] ["mx lookup: boom"]
        = (["x.net", "y.net"],
            .exhausted ["mx lookup: boom", "x.net: dial failed", "y.net: dial failed"])
    ∧ deliverLoop (fun h => if h == "good.net" then none else some "dial failed") none
        (["bad.net"] ++ "good.net" :: ["never.net"]) []
        = (["bad.net"] ++ ["good.net"], .delivered) :=
  ⟨by decide,
   ((deliverLoop_firstSuccess_aggregate
        (fun h => if h == "good.net" then none else some "dial failed")
        (fun _ => "dial failed")).1 ["x.net", "y.net"] ["mx lookup: boom"]
      (by decide)).trans (by decide),
   (deliverLoop_firstSuccess_aggregate
        (fun h => if h == "good.net" then none else some "dial failed")
        (fun _ => "dial failed")).2 ["bad.net"] "good.net" ["never.net"] []
      (by decide) (by decide)⟩

/-- C9: the cancellation signal is sampled before every host attempt; when it
triggers after k attempts have started, the loop attempts exactly the first
k hosts, never starts another attempt, and returns the cancellation failure
instead of continuing with the remaining hosts. -/
theorem deliverLoop_cancellation (send : String → Option String) (f : String → String) :
    ∀ (k : Nat) (hosts errs : List String),
      (∀ h ∈ hosts.take k, send h = some (f h)) → k < hosts.length →
      deliverLoop send (some k) hosts errs = (hosts.take k, .cancelled) := by
  intro k
  induction k with
  | zero =>
    intro hosts errs _ hlen
    cases hosts with
    | nil => simp at hlen
    | cons h t => simp [deliverLoop]
  | succ k ih =>
    intro hosts errs H hlen
    cases hosts with
    | nil => simp at hlen
    | cons h t =>
      have hs : send h = some (f h) := H h (by simp [List.take_succ_cons])
      simp only [deliverLoop, if_neg (by simp : ¬ (some (k + 1) : Option Nat) = some 0),
        hs, tickCancel, List.take_succ_cons]
      rw [ih t _ (fun x hx => H x (by simp [List.take_succ_cons, hx]))
        (Nat.lt_of_succ_lt_succ (by simpa using hlen))]

/-! ## MX sorting: C3

The stability statement used below: sorting is a permutation, pairwise
nondecreasing in preference, and for every preference value the subsequence
of records carrying it is unchanged — together these pin the stable sort. -/

theorem insertGo_perm (a : MXRecord) : ∀ l : List MXRecord, (insertGo a l).Perm (a :: l) := by
  intro l
  induction l with
  | nil => simp [insertGo]
  | cons b t ih =>
    by_cases hab : a.pref < b.pref
    · simp only [insertGo, if_pos hab]
      exact List.Perm.refl _
    · simp only [insertGo, if_neg hab]
      exact (ih.cons b).trans (List.Perm.swap a b t)

theorem mem_insertGo {x a : MXRecord} {l : List MXRecord} :
    x ∈ insertGo a l ↔ x = a ∨ x ∈ l := by
  rw [(insertGo_perm a l).mem_iff]
  simp

theorem insertGo_sorted (a : MXRecord) :
    ∀ l : List MXRecord, l.Pairwise (fun x y => x.pref ≤ y.pref) →
      (insertGo a l).Pairwise (fun x y => x.pref ≤ y.pref) := by
  intro l
  induction l with
  | nil => intro _; simp [insertGo]
  | cons b t ih =>
    intro h
    rw [List.pairwise_cons] at h
    obtain ⟨hb, ht⟩ := h
    by_cases hab : a.pref < b.pref
    · simp only [insertGo, if_pos hab]
      rw [List.pairwise_cons]
      refine ⟨?_, List.pairwise_cons.mpr ⟨hb, ht⟩⟩
      intro x hx
      rcases List.mem_cons.mp hx with rfl | hxt
      · exact Nat.le_of_lt hab
      · exact Nat.le_trans (Nat.le_of_lt hab) (hb x hxt)
    · simp only [insertGo, if_neg hab]
      rw [List.pairwise_cons]
      refine ⟨?_, ih ht⟩
      intro x hx
      rcases mem_insertGo.mp hx with rfl | hxt
      · exact Nat.le_of_not_lt hab
      · exact hb x hxt

theorem insertGo_filter (a : MXRecord) (p : Nat) :
    ∀ l : List MXRecord, l.Pairwise (fun x y => x.pref ≤ y.pref) →
      (insertGo a l).filter (fun r => r.pref == p)
        = if a.pref = p then l.filter (fun r => r.pref == p) ++ [a]
          else l.filter (fun r => r.pref == p) := by
  intro l
  induction l with
  | nil =>
    intro _
    by_cases hap : a.pref = p <;> simp [insertGo, hap]
  | cons b t ih =>
    intro h
    rw [List.pairwise_cons] at h
    obtain ⟨hb, ht⟩ := h
    by_cases hab : a.pref < b.pref
    · simp only [insertGo, if_pos hab]
      by_cases hap : a.pref = p
      · have hnil : (b :: t).filter (fun r => r.pref == p) = [] := by
          rw [List.filter_eq_nil_iff]
          intro x hx
          have hpx : b.pref ≤ x.pref := by
            rcases List.mem_cons.mp hx with rfl | hxt
            · exact Nat.le_refl _
            · exact hb x hxt
          have hgt : p < x.pref := Nat.lt_of_lt_of_le (hap ▸ hab) hpx
          simp [Nat.ne_of_gt hgt]
        rw [List.filter_cons, if_pos (by simp [hap]), hnil, if_pos hap]
        rfl
      · rw [List.filter_cons, if_neg (by simp [hap]), if_neg hap]
    · simp only [insertGo, if_neg hab]
      by_cases hbp : b.pref = p <;> by_cases hap : a.pref = p <;>
        simp [List.filter_cons, hbp, hap, ih ht]

theorem foldlInsert_sorted :
    ∀ (l acc : List MXRecord), acc.Pairwise (fun x y => x.pref ≤ y.pref) →
      (l.foldl (fun acc r => insertGo r acc) acc).Pairwise
        (fun x y => x.pref ≤ y.pref) := by
  intro l
  induction l with
  | nil => intro acc h; simpa using h
  | cons a t ih => intro acc h; simpa using ih _ (insertGo_sorted a acc h)

theorem foldlInsert_perm :
    ∀ (l acc : List MXRecord),
      (l.foldl (fun acc r => insertGo r acc) acc).Perm (acc ++ l) := by
  intro l
  induction l with
  | nil => intro acc; simp
  | cons a t ih =>
    intro acc
    simp only [List.foldl_cons]
    refine (ih (insertGo a acc)).trans ?_
    refine (List.Perm.append_right t (insertGo_perm a acc)).trans ?_
    simpa using List.perm_middle.symm

theorem foldlInsert_filter (p : Nat) :
    ∀ (l acc : List MXRecord), acc.Pairwise (fun x y => x.pref ≤ y.pref) →
      (l.foldl (fun acc r => insertGo r acc) acc).filter (fun r => r.pref == p)
        = acc.filter (fun r => r.pref == p) ++ l.filter (fun r => r.pref == p) := by
  intro l
  induction l with
  | nil => intro acc _; simp
  | cons a t ih =>
    intro acc h
    simp only [List.foldl_cons]
    rw [ih _ (insertGo_sorted a acc h), insertGo_filter a p acc h]
    by_cases hap : a.pref = p <;> simp [List.filter_cons, hap]

theorem goSortMX_sorted (l : List MXRecord) :
    (goSortMX l).Pairwise (fun x y => x.pref ≤ y.pref) :=
  foldlInsert_sorted l [] List.Pairwise.nil

theorem goSortMX_perm (l : List MXRecord) : (goSortMX l).Perm l := by
  simpa using foldlInsert_perm l []

theorem goSortMX_filter (l : List MXRecord) (p : Nat) :
    (goSortMX l).filter (fun r => r.pref == p) = l.filter (fun r => r.pref == p) := by
  simpa using foldlInsert_filter p l [] List.Pairwise.nil

theorem sortSliceTieBreak_sorted (l : List MXRecord) :
    (sortSliceTieBreak l).Pairwise (fun x y => x.pref ≤ y.pref) := by
  unfold sortSliceTieBreak
  split
  · decide
  · exact goSortMX_sorted l

theorem sortSliceTieBreak_perm (l : List MXRecord) :
    (sortSliceTieBreak l).Perm l := by
  unfold sortSliceTieBreak
  split
  · next h => rw [h]; decide
  · exact goSortMX_perm l

theorem sortSliceTieBreak_base (l : List MXRecord) (h : l.length ≤ 12) :
    sortSliceTieBreak l = goSortMX l := by
  unfold sortSliceTieBreak
  split
  · next he =>
    rw [he] at h
    exact absurd h (by decide)
  · rfl

/-- C3 counterexample: a thirteen-record lookup result with a preference
tie. `sortSliceTieBreak` satisfies everything the program guarantees about
`sort.Slice` — a preference-sorted permutation, with the stable base case on
every list of at most 12 records (`sortSliceTieBreak_sorted`,
`sortSliceTieBreak_perm`, `sortSliceTieBreak_base`) — yet the target-host
list it yields does not keep resolver order among the tied records, so the
claim's unconditional stable-on-ties clause is not a program guarantee. -/
theorem deliverDirect_tieOrder_cex :
    mxRecords13.length = 13
    ∧ (sortSliceTieBreak mxRecords13).Pairwise (fun x y => x.pref ≤ y.pref)
    ∧ (sortSliceTieBreak mxRecords13).Perm mxRecords13
    ∧ (computeTargetHosts sortSliceTieBreak none mxRecords13 "x.net").1
        = ["tie-b", "tie-a", "c", "d", "e", "f", "g", "h", "i", "j", "k", "l", "m"]
    ∧ (sortSliceTieBreak mxRecords13).filter (fun r => r.pref == 10)
        ≠ mxRecords13.filter (fun r => r.pref == 10) := by
  decide

/-- C3 (amended): when the mail-exchange lookup succeeds with a non-empty
record set, the target list is the `sort.Slice` result with each hostname's
trailing dot stripped; that result is sorted ascending by preference and a
permutation of the records, and it keeps resolver order among equal
preferences whenever the record set has at most 12 records — the range on
which `sort.Slice` runs its stable insertion-sort base case (beyond it Go
documents no stability). On lookup failure or an empty record set the
target list is exactly the domain itself; a lookup failure is recorded for
the final aggregate; and (with every transfer failing) the loop attempts
exactly the target list, in order. The hypotheses are the `sort.Slice`
contract. -/
theorem deliverDirect_hostSelection (sortSlice : List MXRecord → List MXRecord)
    (lookupErr : Option String) (records : List MXRecord) (domain : String)
    (hsorted : ∀ l : List MXRecord,
      (sortSlice l).Pairwise (fun x y => x.pref ≤ y.pref))
    (hperm : ∀ l : List MXRecord, (sortSlice l).Perm l)
    (hbase : ∀ l : List MXRecord, l.length ≤ 12 → sortSlice l = goSortMX l) :
    (lookupErr = none → records ≠ [] →
        (computeTargetHosts sortSlice lookupErr records domain).1
            = (sortSlice records).map (fun r => normalizeMXHost r.host)
          ∧ (sortSlice records).Pairwise (fun x y => x.pref ≤ y.pref)
          ∧ (sortSlice records).Perm records
          ∧ (records.length ≤ 12 →
              ∀ p, (sortSlice records).filter (fun r => r.pref == p)
                = records.filter (fun r => r.pref == p)))
    ∧ ((lookupErr ≠ none ∨ records = []) →
        (computeTargetHosts sortSlice lookupErr records domain).1 = [domain])
    ∧ (∀ e, lookupErr = some e →
        (computeTargetHosts sortSlice lookupErr records domain).2
          = ["mx lookup: " ++ e])
    ∧ (lookupErr = none →
        (computeTargetHosts sortSlice lookupErr records domain).2 = [])
    ∧ (∀ (send : String → Option String) (f : String → String) (errs : List String),
        (∀ h ∈ (computeTargetHosts sortSlice lookupErr records domain).1,
            send h = some (f h)) →
        (deliverLoop send none
            (computeTargetHosts sortSlice lookupErr records domain).1 errs).1
          = (computeTargetHosts sortSlice lookupErr records domain).1) := by
  refine ⟨fun h1 h2 => ⟨?_, hsorted records, hperm records, fun hlen p => ?_⟩,
      fun h => ?_, fun e he => ?_, fun h1 => ?_, fun send f errs H => ?_⟩
  · simp [computeTargetHosts, h1, h2]
  · rw [hbase records hlen]
    exact goSortMX_filter records p
  · rcases h with h | h <;> simp [computeTargetHosts, h]
  · simp [computeTargetHosts, he]
  · simp [computeTargetHosts, h1]
  · rw [deliverLoop_allFail send f _ errs H]

/-- Witness for the C3 theorem: the `sort.Slice` contract discharged by the
stable base case itself, at the spec's [(20, b), (10, a)] example (with a
trailing dot on one host) and at a failed lookup. -/
theorem deliverDirect_hostSelection_w :
    (∀ l : List MXRecord, (goSortMX l).Pairwise (fun x y => x.pref ≤ y.pref))
    ∧ (∀ l : List MXRecord, (goSortMX l).Perm l)
    ∧ (∀ l : List MXRecord, l.length ≤ 12 → goSortMX l = goSortMX l)
    ∧ (computeTargetHosts goSortMX none [⟨"b.example.", 20⟩, ⟨"a.example", 10⟩]
        "x.net").1 = ["a.example", "b.example"]
    ∧ (computeTargetHosts goSortMX (some "no such host") [] "x.net").1 = ["x.net"]
    ∧ (computeTargetHosts goSortMX (some "no such host") [] "x.net").2
        = ["mx lookup: no such host"] :=
  ⟨goSortMX_sorted, goSortMX_perm, fun _ _ => rfl,
   ((deliverDirect_hostSelection goSortMX none
        [⟨"b.example.", 20⟩, ⟨"a.example", 10⟩] "x.net"
        goSortMX_sorted goSortMX_perm (fun _ _ => rfl)).1 rfl (by decide)).1.trans
     (by decide),
   (deliverDirect_hostSelection goSortMX (some "no such host") [] "x.net"
      goSortMX_sorted goSortMX_perm (fun _ _ => rfl)).2.1 (Or.inr rfl),
   (deliverDirect_hostSelection goSortMX (some "no such host") [] "x.net"
      goSortMX_sorted goSortMX_perm (fun _ _ => rfl)).2.2.1 "no such host" rfl⟩

/-- Witness for the C9 theorem: cancellation triggering after one of three
host attempts leaves exactly one host attempted and a cancellation result. -/
theorem deliverLoop_cancellation_w :
    (∀ h ∈ (["x.net", "y.net", "z.net"] : List String).take 1,
        (fun _ => (some "dial failed" : Option String)) h
          = some ((fun _ => "dial failed") h))
    ∧ 1 < (["x.net", "y.net", "z.net"] : List String).length
    ∧ deliverLoop (fun _ => some "dial failed") (some 1) ["x.net", "y.net", "z.net"] []
        = (["x.net"], .cancelled) :=
  ⟨by decide, by decide,
   (deliverLoop_cancellation (fun _ => some "dial failed") (fun _ => "dial failed") 1
      ["x.net", "y.net", "z.net"] [] (by decide) (by decide)).trans (by decide)⟩

end SmtpEcho
